import Mathlib

/-!
Shallow embedding of `src/OpenCVTests/electrodeDetection.py`: a webcam
capture loop that grayscale-template-matches each frame against a fixed
reference image (OpenCV `TM_CCOEFF_NORMED`), marks every position whose
normalized cross-correlation score is at least 0.3 with a red rectangle,
and shows the annotated frame in a window.

Images are row-major lists of rows; grayscale pixels are naturals, color
pixels are BGR triples of naturals.  The normalized cross-correlation
score at a position is carried exactly as the pair (numerator,
denominator squared) over `ℚ`; the real-valued score is the numerator
divided by the square root of the second component, and the threshold
comparison the code performs on the floating score surface is embedded as
the decidable predicate `geScore`, proved equivalent to the comparison of
the real-valued score.  Library calls (`cv2.cvtColor`, `cv2.matchTemplate`,
`cv2.rectangle`, `cv2.imshow`, `cv2.VideoCapture`) are embedded by their
documented behavior; `cv2.imshow` and `print` become entries of an
explicit effect trace.
-/

/-- A grayscale image: a row-major list of rows of pixel intensities. -/
abbrev GrayImage := List (List Nat)

/-- A color image: a row-major list of rows of BGR pixel triples. -/
abbrev ColorImage := List (List (Nat × Nat × Nat))

/-- Height of an image: its number of rows. -/
def height (img : List (List α)) : Nat := img.length

/-- Width of an image: the length of its first row (0 when empty). -/
def width (img : List (List α)) : Nat := (img.headD []).length

/-- An image is rectangular when every row has the image's width
(numpy arrays, which the source manipulates, always are). -/
abbrev Rectangular (img : List (List α)) : Prop :=
  ∀ r ∈ img, r.length = width img

/-- Grayscale pixel at row `y`, column `x` (0 outside the image),
as a rational for the correlation arithmetic. -/
def pixel (img : GrayImage) (y x : Nat) : ℚ :=
  ((img.getD y []).getD x 0 : Nat)

/-- Color pixel at row `y`, column `x` ((0,0,0) outside the image). -/
def pixelC (img : ColorImage) (y x : Nat) : Nat × Nat × Nat :=
  (img.getD y []).getD x (0, 0, 0)

/-- OpenCV BGR→gray conversion of one pixel, in OpenCV's 14-bit fixed
point: y = (4899·R + 9617·G + 1868·B + 2¹³) >> 14. -/
def bgr2grayPix (p : Nat × Nat × Nat) : Nat :=
  (4899 * p.2.2 + 9617 * p.2.1 + 1868 * p.1 + 8192) / 16384

/-- OpenCV `cv2.cvtColor(img, cv2.COLOR_BGR2GRAY)`: per-pixel conversion. -/
def cvtColorBGR2GRAY (img : ColorImage) : GrayImage :=
  img.map (fun row => row.map bgr2grayPix)

/-- Mean of the template's pixels. -/
def tmplMean (t : GrayImage) : ℚ :=
  (∑ i ∈ Finset.range (height t), ∑ j ∈ Finset.range (width t), pixel t i j)
    / (height t * width t)

/-- Mean of the `h × w` window of `img` whose top-left corner is
row `y`, column `x`. -/
def winMean (img : GrayImage) (h w y x : Nat) : ℚ :=
  (∑ i ∈ Finset.range h, ∑ j ∈ Finset.range w, pixel img (y + i) (x + j))
    / (h * w)

/-- Numerator of the `TM_CCOEFF_NORMED` score at position (row `y`,
column `x`): the correlation of the mean-centered template with the
mean-centered window. -/
def ccoeffNum (img tmpl : GrayImage) (y x : Nat) : ℚ :=
  ∑ i ∈ Finset.range (height tmpl), ∑ j ∈ Finset.range (width tmpl),
    (pixel tmpl i j - tmplMean tmpl) *
      (pixel img (y + i) (x + j) - winMean img (height tmpl) (width tmpl) y x)

/-- Sum of squares of the mean-centered template. -/
def tmplSS (tmpl : GrayImage) : ℚ :=
  ∑ i ∈ Finset.range (height tmpl), ∑ j ∈ Finset.range (width tmpl),
    (pixel tmpl i j - tmplMean tmpl) ^ 2

/-- Sum of squares of the mean-centered window at (row `y`, column `x`). -/
def winSS (img tmpl : GrayImage) (y x : Nat) : ℚ :=
  ∑ i ∈ Finset.range (height tmpl), ∑ j ∈ Finset.range (width tmpl),
    (pixel img (y + i) (x + j) - winMean img (height tmpl) (width tmpl) y x) ^ 2

/-- Square of the denominator of the `TM_CCOEFF_NORMED` score. -/
def ccoeffDenSq (img tmpl : GrayImage) (y x : Nat) : ℚ :=
  tmplSS tmpl * winSS img tmpl y x

/-- The real-valued `TM_CCOEFF_NORMED` score at (row `y`, column `x`):
numerator over the square root of the squared denominator. -/
noncomputable def nccScore (img tmpl : GrayImage) (y x : Nat) : ℝ :=
  (ccoeffNum img tmpl y x : ℝ) / Real.sqrt (ccoeffDenSq img tmpl y x : ℝ)

/-- Decides `t ≤ n / √D` exactly over the rationals (for `0 ≤ D`,
with Lean's convention `n / 0 = 0` for `D = 0`). -/
def geScore (n D t : ℚ) : Bool :=
  if D = 0 then decide (t ≤ 0)
  else if 0 < t then decide (0 < n ∧ t ^ 2 * D ≤ n ^ 2)
  else decide (0 ≤ n ∨ n ^ 2 ≤ t ^ 2 * D)

/-- OpenCV `cv2.matchTemplate(img, tmpl, cv2.TM_CCOEFF_NORMED)`: the score
surface, of height `height img - height tmpl + 1` and width
`width img - width tmpl + 1`, each entry the exact (numerator,
squared denominator) representation of the score at that placement. -/
def matchTemplateCCOEFFNormed (img tmpl : GrayImage) : List (List (ℚ × ℚ)) :=
  (List.range (height img - height tmpl + 1)).map (fun y =>
    (List.range (width img - width tmpl + 1)).map (fun x =>
      (ccoeffNum img tmpl y x, ccoeffDenSq img tmpl y x)))

/-- All (x, y) positions of the score surface, in the row-major order in
which `zip(*np.where(res >= threshold)[::-1])` enumerates them. -/
def allPositions (img tmpl : GrayImage) : List (Nat × Nat) :=
  (List.range (height img - height tmpl + 1)).flatMap (fun y =>
    (List.range (width img - width tmpl + 1)).map (fun x => (x, y)))

/-- The points `zip(*np.where(res >= threshold)[::-1])`: the (x, y) positions whose
score is at least `t`, in row-major order.  This is the Match Set. -/
def matchPoints (img tmpl : GrayImage) (t : ℚ) : List (Nat × Nat) :=
  (allPositions img tmpl).filter (fun p =>
    geScore (ccoeffNum img tmpl p.2 p.1) (ccoeffDenSq img tmpl p.2 p.1) t)

/-- The fixed similarity threshold of the source: the rational 3/10
(written `mkRat` so that kernel evaluation can reduce comparisons). -/
def threshold : ℚ := mkRat 3 10

/-- Whether pixel (column `px`, row `py`) lies in the border band that
`cv2.rectangle(img, (x1,y1), (x2,y2), color, th)` paints: within `th / 2`
of the rectangle outline, i.e. inside the outline grown by `th / 2` but
not strictly inside the outline shrunk by `th / 2`. -/
def onRectBorder (x1 y1 x2 y2 : ℤ) (th : ℤ) (px py : Nat) : Bool :=
  let r := th / 2
  decide ((x1 - r ≤ (px : ℤ) ∧ (px : ℤ) ≤ x2 + r ∧
           y1 - r ≤ (py : ℤ) ∧ (py : ℤ) ≤ y2 + r) ∧
    ¬(x1 + r < (px : ℤ) ∧ (px : ℤ) < x2 - r ∧
      y1 + r < (py : ℤ) ∧ (py : ℤ) < y2 - r))

/-- OpenCV `cv2.rectangle(img, pt1, pt2, color, th)`: repaint every pixel of the
border band with `color`, leaving every other pixel in place. -/
def rectangle (img : ColorImage) (pt1 pt2 : Nat × Nat)
    (color : Nat × Nat × Nat) (th : ℤ) : ColorImage :=
  (List.range (height img)).map (fun y =>
    (List.range (width img)).map (fun x =>
      if onRectBorder pt1.1 pt1.2 pt2.1 pt2.2 th x y then color
      else pixelC img y x))

/-- An observable side effect of the script: a window update, a file
write, or a console line. -/
inductive Effect where
  | imshow (window : String) (img : ColorImage)
  | imwrite (file : String) (img : ColorImage)
  | consoleLine (s : String)
deriving DecidableEq

/-- Holds `true` exactly on window-update (display) effects. -/
def Effect.isImshow : Effect → Bool
  | .imshow _ _ => true
  | _ => false

/-- Holds `true` exactly on file-write effects. -/
def Effect.isImwrite : Effect → Bool
  | .imwrite _ _ => true
  | _ => false

/-- Result of one `process_image` call: the annotated frame (the source
mutates `img_rgb` in place) and the side effects the call performed. -/
structure ProcOut where
  annotated : ColorImage
  events : List Effect
deriving DecidableEq

/-- The source's `process_image(img_rgb, template, count)`: convert to
grayscale, match the template, draw a red (BGR (0,0,255)) rectangle of
the template's size with thickness 2 at every match on the original color
frame, and show the result in the window "Detected".  The `imwrite` call
of the source is commented out, and `count` is used nowhere else. -/
def process_image (img_rgb : ColorImage) (template : GrayImage) (count : Nat) :
    ProcOut :=
  let img_gray := cvtColorBGR2GRAY img_rgb
  let w := width template
  let h := height template
  let pts := matchPoints img_gray template threshold
  let annotated := pts.foldl
    (fun im pt => rectangle im pt (pt.1 + w, pt.2 + h) (0, 0, 255) 2) img_rgb
  { annotated := annotated
    events := [Effect.imshow "Detected" annotated] }

/-- The camera device: whether `cv2.VideoCapture(0)` opened, and the
result of the `i`-th `vidcap.read()` call (`none` = failed pull). -/
structure Camera where
  opened : Bool
  frames : Nat → Option ColorImage

/-- Arguments of one recorded `process_image` call. -/
structure CallRec where
  frame : ColorImage
  tmpl : GrayImage
  count : Nat
deriving DecidableEq

/-- Outcome of a run of `main`: camera-open failure (with its effects and
process exit status), normal loop termination (final counter, effect
trace, recorded matcher calls, and the template value after the loop), or
fuel exhaustion of the embedding. -/
inductive RunResult where
  | cameraFailed (events : List Effect) (exitCode : Nat)
  | finished (finalCount : Nat) (events : List Effect) (calls : List CallRec)
      (tmplEnd : GrayImage)
  | outOfFuel
deriving DecidableEq

/-- The `while True` capture loop.  At counter value `count` it pulls
frame `count`; on failure it breaks (normal termination), otherwise it
prints, processes the frame, increments the counter, and breaks if the
1 ms key poll returned `q` (keycode 113).  `time.sleep(0.1)` has no
observable effect in the embedding.  `fuel` bounds the number of
iterations the embedding unfolds; `none` means fuel ran out. -/
def captureLoop (cam : Camera) (keys : Nat → Int) (template : GrayImage) :
    Nat → Nat → List Effect → List CallRec →
    Option (Nat × List Effect × List CallRec)
  | 0, _, _, _ => none
  | fuel + 1, count, evs, calls =>
    match cam.frames count with
    | none => some (count, evs, calls)
    | some image =>
      let evs' := evs ++ [Effect.consoleLine "Read a new frame:  True"]
      let po := process_image image template count
      let evs'' := evs' ++ po.events
      let calls' := calls ++ [⟨image, template, count⟩]
      if keys count = 113 then some (count + 1, evs'', calls')
      else captureLoop cam keys template fuel (count + 1) evs'' calls'

/-- The source's `main()`: open the camera; if that fails, print
"Cannot open camera" and `exit()` (Python's bare `exit()` raises
`SystemExit(None)`, so the process exit status is 0); otherwise load the
template once and run the capture loop with `count = 0`. -/
def main' (cam : Camera) (keys : Nat → Int) (templateFile : GrayImage)
    (fuel : Nat) : RunResult :=
  if cam.opened = false then
    RunResult.cameraFailed [Effect.consoleLine "Cannot open camera"] 0
  else
    let template := templateFile
    match captureLoop cam keys template fuel 0 [] [] with
    | none => RunResult.outOfFuel
    | some (c, evs, calls) => RunResult.finished c evs calls template

/-- The exit status of a run, when the run set one explicitly. -/
def RunResult.exitCode? : RunResult → Option Nat
  | .cameraFailed _ c => some c
  | _ => none

/-- The `process_image` calls a run performed. -/
def RunResult.recordedCalls : RunResult → List CallRec
  | .finished _ _ cs _ => cs
  | _ => []

/-- The effect trace of a run. -/
def RunResult.trace : RunResult → List Effect
  | .cameraFailed evs _ => evs
  | .finished _ evs _ _ => evs
  | .outOfFuel => []

/-- The final frame counter of a run, when the loop terminated normally. -/
def RunResult.finalCount? : RunResult → Option Nat
  | .finished c _ _ _ => some c
  | _ => none

/-- The Match Set the source computes for a color frame: the match
positions of the template in the grayscale conversion of the frame. -/
def frameMatchSet (frame : ColorImage) (tmpl : GrayImage) (t : ℚ) :
    List (Nat × Nat) :=
  matchPoints (cvtColorBGR2GRAY frame) tmpl t

/-- A concrete 1×1 black frame, for instantiating theorems. -/
def frameEx : ColorImage := [[(0, 0, 0)]]

/-- A concrete 1×1 black template, for instantiating theorems. -/
def tmplEx : GrayImage := [[0]]

/-- A camera whose device failed to open. -/
def camClosed : Camera := { opened := false, frames := fun _ => none }

/-- A camera that delivers four frames and then signals end of stream. -/
def camEx : Camera :=
  { opened := true, frames := fun i => if i < 4 then some frameEx else none }

/-- A key-poll function on which no key is ever pressed. -/
def keysEx : Nat → Int := fun _ => -1

/-- A camera that opens but delivers no frame at all. -/
def camEmpty : Camera := { opened := true, frames := fun _ => none }

lemma height_cvtColor (img : ColorImage) :
    height (cvtColorBGR2GRAY img) = height img := by
  simp [height, cvtColorBGR2GRAY]

lemma width_cvtColor (img : ColorImage) :
    width (cvtColorBGR2GRAY img) = width img := by
  cases img with
  | nil => rfl
  | cons r t => simp [width, cvtColorBGR2GRAY]

lemma getD_map_range {α : Type} (f : Nat → α) (n i : Nat) (d : α) :
    ((List.range n).map f).getD i d = if i < n then f i else d := by
  by_cases h : i < n
  · rw [if_pos h, List.getD_eq_getElem?_getD, List.getElem?_map,
      List.getElem?_range h]
    rfl
  · rw [if_neg h]
    apply List.getD_eq_default
    simpa using Nat.le_of_not_lt h

/-- C10: the frame counter does not interfere with per-frame processing:
two `process_image` calls that differ only in `count` return the same
annotated frame and the same effects (the counter's only use, the
per-frame `imwrite`, is commented out in the source). -/
theorem process_image_count_noninterference (img : ColorImage)
    (tmpl : GrayImage) (c₁ c₂ : Nat) :
    process_image img tmpl c₁ = process_image img tmpl c₂ := rfl

/-- C7: matching is deterministic: two invocations on identical frame and
template inputs produce identical Match Sets. -/
theorem matcher_deterministic (f₁ f₂ : ColorImage) (t₁ t₂ : GrayImage)
    (hf : f₁ = f₂) (ht : t₁ = t₂) :
    frameMatchSet f₁ t₁ threshold = frameMatchSet f₂ t₂ threshold := by
  rw [hf, ht]

/-- Witness for `matcher_deterministic` at the 1×1 frame and template. -/
theorem matcher_deterministic_witness :
    frameEx = frameEx ∧ tmplEx = tmplEx ∧
    frameMatchSet frameEx tmplEx threshold =
      frameMatchSet frameEx tmplEx threshold :=
  ⟨rfl, rfl, matcher_deterministic frameEx frameEx tmplEx tmplEx rfl rfl⟩

/-- Counterexample to C8 as stated: on a concrete frame and template,
`process_image` does perform a display call — its effect list is one
window update (`cv2.imshow('Detected', ...)` is in its body). -/
theorem process_image_performs_display :
    (process_image frameEx tmplEx 0).events.map Effect.isImshow = [true] :=
  rfl

/-- C8 amended: the only side effects of `process_image` are mutating the
frame passed in and rendering the annotated frame once to the window
"Detected"; it performs no file read or write and no console output. -/
theorem process_image_effects (img : ColorImage) (tmpl : GrayImage)
    (count : Nat) :
    (process_image img tmpl count).events =
      [Effect.imshow "Detected" (process_image img tmpl count).annotated] :=
  rfl

/-- Counterexample to C5 as stated: with a camera that fails to open, the
process exit status is 0 (Python's bare `exit()` raises
`SystemExit(None)`), not a non-zero-equivalent status. -/
theorem camera_failure_exit_status_zero :
    (main' camClosed keysEx tmplEx 1).exitCode? = some 0 := rfl

/-- C5 amended: if the camera cannot be opened, the process prints the
diagnostic "Cannot open camera" and terminates immediately with exit
status 0, without entering the capture loop: no frame is pulled and the
template matcher is never invoked. -/
theorem camera_open_failure (cam : Camera) (keys : Nat → Int)
    (tmpl : GrayImage) (fuel : Nat) (h : cam.opened = false) :
    main' cam keys tmpl fuel =
      RunResult.cameraFailed [Effect.consoleLine "Cannot open camera"] 0 ∧
    (main' cam keys tmpl fuel).recordedCalls = [] ∧
    (main' cam keys tmpl fuel).trace =
      [Effect.consoleLine "Cannot open camera"] := by
  have hm : main' cam keys tmpl fuel =
      RunResult.cameraFailed [Effect.consoleLine "Cannot open camera"] 0 := by
    simp [main', h]
  exact ⟨hm, by rw [hm]; rfl, by rw [hm]; rfl⟩

/-- Witness for `camera_open_failure` at a concrete closed camera. -/
theorem camera_open_failure_witness :
    camClosed.opened = false ∧
    (main' camClosed keysEx tmplEx 1 =
       RunResult.cameraFailed [Effect.consoleLine "Cannot open camera"] 0 ∧
     (main' camClosed keysEx tmplEx 1).recordedCalls = [] ∧
     (main' camClosed keysEx tmplEx 1).trace =
       [Effect.consoleLine "Cannot open camera"]) :=
  ⟨rfl, camera_open_failure camClosed keysEx tmplEx 1 rfl⟩

/-- C6: for a frame and template with template dimensions at most the
frame's, the score surface has exactly
(frame height − template height + 1) rows, each of length
(frame width − template width + 1). -/
theorem score_surface_dims (frame : ColorImage) (tmpl : GrayImage)
    (hh : height tmpl ≤ height frame) (hw : width tmpl ≤ width frame) :
    height (matchTemplateCCOEFFNormed (cvtColorBGR2GRAY frame) tmpl) =
      height frame - height tmpl + 1 ∧
    ∀ row ∈ matchTemplateCCOEFFNormed (cvtColorBGR2GRAY frame) tmpl,
      row.length = width frame - width tmpl + 1 := by
  constructor
  · show ((List.range _).map _).length = _
    rw [List.length_map, List.length_range, height_cvtColor]
  · intro row hrow
    rw [matchTemplateCCOEFFNormed] at hrow
    obtain ⟨y, hy, rfl⟩ := List.mem_map.mp hrow
    rw [List.length_map, List.length_range, width_cvtColor]

/-- Witness for `score_surface_dims` at the 1×1 frame and template. -/
theorem score_surface_dims_witness :
    height tmplEx ≤ height frameEx ∧ width tmplEx ≤ width frameEx ∧
    (height (matchTemplateCCOEFFNormed (cvtColorBGR2GRAY frameEx) tmplEx) =
       height frameEx - height tmplEx + 1 ∧
     ∀ row ∈ matchTemplateCCOEFFNormed (cvtColorBGR2GRAY frameEx) tmplEx,
       row.length = width frameEx - width tmplEx + 1) :=
  ⟨by decide, by decide, score_surface_dims frameEx tmplEx (by decide) (by decide)⟩

lemma captureLoop_calls_tmpl (cam : Camera) (keys : Nat → Int)
    (template : GrayImage) :
    ∀ (fuel count : Nat) (evs : List Effect) (calls : List CallRec)
      (res : Nat × List Effect × List CallRec),
      captureLoop cam keys template fuel count evs calls = some res →
      (∀ c ∈ calls, c.tmpl = template) →
      ∀ c ∈ res.2.2, c.tmpl = template := by
  intro fuel
  induction fuel with
  | zero =>
    intro count evs calls res h
    simp [captureLoop] at h
  | succ n ih =>
    intro count evs calls res h hcalls
    rcases hf : cam.frames count with _ | image
    · simp only [captureLoop, hf, Option.some.injEq] at h
      subst h
      exact hcalls
    · simp only [captureLoop, hf] at h
      by_cases hk : keys count = 113
      · rw [if_pos hk] at h
        rw [Option.some.injEq] at h
        subst h
        intro c hc
        rcases List.mem_append.mp hc with h1 | h2
        · exact hcalls c h1
        · rw [List.mem_singleton] at h2
          rw [h2]
      · rw [if_neg hk] at h
        refine ih _ _ _ _ h ?_
        intro c hc
        rcases List.mem_append.mp hc with h1 | h2
        · exact hcalls c h1
        · rw [List.mem_singleton] at h2
          rw [h2]

/-- C9: the template is loaded once before the loop and never mutated:
every recorded matcher call of a terminating run received exactly the
template as loaded, and the template value after the loop equals the
template value as loaded. -/
theorem template_loaded_once_immutable (cam : Camera) (keys : Nat → Int)
    (tmplFile : GrayImage) (fuel c : Nat) (evs : List Effect)
    (calls : List CallRec) (tEnd : GrayImage)
    (hrun : main' cam keys tmplFile fuel =
      RunResult.finished c evs calls tEnd) :
    tEnd = tmplFile ∧ ∀ call ∈ calls, call.tmpl = tmplFile := by
  simp only [main'] at hrun
  by_cases hop : cam.opened = false
  · rw [if_pos hop] at hrun
    simp at hrun
  · rw [if_neg hop] at hrun
    rcases hl : captureLoop cam keys tmplFile fuel 0 [] [] with _ | res
    · rw [hl] at hrun
      simp at hrun
    · obtain ⟨c', evs', calls'⟩ := res
      rw [hl] at hrun
      injection hrun with h1 h2 h3 h4
      refine ⟨h4.symm, ?_⟩
      have hmain := captureLoop_calls_tmpl cam keys tmplFile fuel 0 [] []
        (c', evs', calls') hl (by intro x hx; simp at hx)
      intro call hcall
      exact hmain call (by rw [h3]; exact hcall)

/-- Witness for `template_loaded_once_immutable` on a camera that opens
and immediately signals end of stream. -/
theorem template_loaded_once_immutable_witness :
    main' camEmpty keysEx tmplEx 1 = RunResult.finished 0 [] [] tmplEx ∧
    (tmplEx = tmplEx ∧ ∀ call ∈ ([] : List CallRec), call.tmpl = tmplEx) :=
  ⟨rfl, template_loaded_once_immutable camEmpty keysEx tmplEx 1 0 [] [] tmplEx rfl⟩

lemma captureLoop_end_of_stream (cam : Camera) (keys : Nat → Int)
    (template : GrayImage) (k : Nat) (hfail : cam.frames k = none) :
    ∀ (fuel count : Nat) (evs : List Effect) (calls : List CallRec),
      count ≤ k → k - count < fuel →
      (∀ i, count ≤ i → i < k → (cam.frames i).isSome = true) →
      (∀ i, count ≤ i → i < k → keys i ≠ 113) →
      ∃ evs' calls',
        captureLoop cam keys template fuel count evs calls =
          some (k, evs ++ evs', calls ++ calls') ∧
        calls'.length = k - count ∧
        (∀ c ∈ calls', count ≤ c.count ∧ c.count < k ∧ c.tmpl = template) ∧
        (∀ e ∈ evs', e = Effect.consoleLine "Read a new frame:  True" ∨
          e.isImshow = true) := by
  intro fuel
  induction fuel with
  | zero =>
    intro count evs calls hck hfuel _ _
    omega
  | succ n ih =>
    intro count evs calls hck hfuel hsome hkeys
    rcases Nat.eq_or_lt_of_le hck with heq | hlt
    · refine ⟨[], [], ?_, ?_, ?_, ?_⟩
      · rw [heq]
        simp only [captureLoop, hfail]
        simp
      · simp [heq]
      · intro c hc
        simp at hc
      · intro e he
        simp at he
    · have hs := hsome count le_rfl hlt
      rcases ho : cam.frames count with _ | image
      · rw [ho] at hs
        simp at hs
      · have hk : keys count ≠ 113 := hkeys count le_rfl hlt
        obtain ⟨evs', calls', hloop, hlen, hcallsP, hevsP⟩ :=
          ih (count + 1)
            (evs ++ [Effect.consoleLine "Read a new frame:  True"] ++
              (process_image image template count).events)
            (calls ++ [⟨image, template, count⟩]) hlt (by omega)
            (fun i h1 h2 => hsome i (by omega) h2)
            (fun i h1 h2 => hkeys i (by omega) h2)
        refine ⟨[Effect.consoleLine "Read a new frame:  True"] ++
            (process_image image template count).events ++ evs',
          ⟨image, template, count⟩ :: calls', ?_, ?_, ?_, ?_⟩
        · simp only [captureLoop, ho, if_neg hk]
          rw [hloop]
          simp
        · simp [hlen]
          omega
        · intro c hc
          rcases List.mem_cons.mp hc with hc1 | hc2
          · rw [hc1]
            exact ⟨le_rfl, hlt, rfl⟩
          · obtain ⟨h1, h2, h3⟩ := hcallsP c hc2
            exact ⟨by omega, h2, h3⟩
        · intro e he
          rcases List.mem_append.mp he with he1 | he2
          · rcases List.mem_append.mp he1 with he3 | he4
            · rw [List.mem_singleton] at he3
              exact Or.inl he3
            · have hpo : (process_image image template count).events =
                  [Effect.imshow "Detected"
                    (process_image image template count).annotated] := rfl
              rw [hpo, List.mem_singleton] at he4
              right
              rw [he4]
              rfl
          · exact hevsP e he2

/-- C4: if the camera opens and the frame pull first fails at read index
`k` (with no earlier quit key), the run terminates normally with final
counter `k`, exactly `k` processed frames, no matcher call for the failed
pull (every recorded call has index < `k`), and a trace holding only the
per-success console line and window updates — no error report. -/
theorem end_of_stream_terminates (cam : Camera) (keys : Nat → Int)
    (tmpl : GrayImage) (fuel k : Nat)
    (hopen : cam.opened = true)
    (hsome : ∀ i, i < k → (cam.frames i).isSome = true)
    (hfail : cam.frames k = none)
    (hkeys : ∀ i, i < k → keys i ≠ 113)
    (hfuel : k < fuel) :
    (main' cam keys tmpl fuel).finalCount? = some k ∧
    (main' cam keys tmpl fuel).recordedCalls.length = k ∧
    (∀ c ∈ (main' cam keys tmpl fuel).recordedCalls, c.count < k) ∧
    (∀ e ∈ (main' cam keys tmpl fuel).trace,
      e = Effect.consoleLine "Read a new frame:  True" ∨
        e.isImshow = true) := by
  obtain ⟨evs', calls', hloop, hlen, hcalls, hevs⟩ :=
    captureLoop_end_of_stream cam keys tmpl k hfail fuel 0 [] []
      (Nat.zero_le k) (by omega) (fun i _ h2 => hsome i h2)
      (fun i _ h2 => hkeys i h2)
  have hm : main' cam keys tmpl fuel =
      RunResult.finished k evs' calls' tmpl := by
    simp only [main']
    rw [if_neg (by simp [hopen])]
    rw [hloop]
    simp
  rw [hm]
  refine ⟨rfl, ?_, ?_, ?_⟩
  · show calls'.length = k
    omega
  · intro c hc
    exact (hcalls c hc).2.1
  · intro e he
    exact hevs e he

/-- Witness for `end_of_stream_terminates`: a camera that delivers four
frames and fails on the fifth pull, matching the spec's scenario. -/
theorem end_of_stream_terminates_witness :
    camEx.opened = true ∧
    (∀ i, i < 4 → (camEx.frames i).isSome = true) ∧
    camEx.frames 4 = none ∧
    (∀ i, i < 4 → keysEx i ≠ 113) ∧
    4 < 5 ∧
    ((main' camEx keysEx tmplEx 5).finalCount? = some 4 ∧
     (main' camEx keysEx tmplEx 5).recordedCalls.length = 4 ∧
     (∀ c ∈ (main' camEx keysEx tmplEx 5).recordedCalls, c.count < 4) ∧
     (∀ e ∈ (main' camEx keysEx tmplEx 5).trace,
       e = Effect.consoleLine "Read a new frame:  True" ∨
         e.isImshow = true)) :=
  ⟨rfl, by decide, rfl, by decide, by decide,
   end_of_stream_terminates camEx keysEx tmplEx 5 4 rfl (by decide) rfl
     (by decide) (by decide)⟩

lemma tmplSS_nonneg (tmpl : GrayImage) : 0 ≤ tmplSS tmpl :=
  Finset.sum_nonneg fun _ _ => Finset.sum_nonneg fun _ _ => sq_nonneg _

lemma winSS_nonneg (img tmpl : GrayImage) (y x : Nat) :
    0 ≤ winSS img tmpl y x :=
  Finset.sum_nonneg fun _ _ => Finset.sum_nonneg fun _ _ => sq_nonneg _

lemma ccoeffDenSq_nonneg (img tmpl : GrayImage) (y x : Nat) :
    0 ≤ ccoeffDenSq img tmpl y x :=
  mul_nonneg (tmplSS_nonneg tmpl) (winSS_nonneg img tmpl y x)

lemma geScore_mono (n D t₁ t₂ : ℚ) (hD : 0 ≤ D) (ht : t₁ ≤ t₂)
    (h : geScore n D t₂ = true) : geScore n D t₁ = true := by
  unfold geScore at h ⊢
  by_cases hD0 : D = 0
  · rw [if_pos hD0] at h ⊢
    rw [decide_eq_true_eq] at h ⊢
    linarith
  · rw [if_neg hD0] at h ⊢
    by_cases ht2 : 0 < t₂
    · rw [if_pos ht2, decide_eq_true_eq] at h
      obtain ⟨hn, hsq⟩ := h
      by_cases ht1 : 0 < t₁
      · rw [if_pos ht1, decide_eq_true_eq]
        refine ⟨hn, ?_⟩
        have hsq2 : t₁ ^ 2 ≤ t₂ ^ 2 := by
          nlinarith [mul_nonneg (by linarith : (0:ℚ) ≤ t₂ - t₁)
            (by linarith : (0:ℚ) ≤ t₂ + t₁)]
        nlinarith [mul_le_mul_of_nonneg_right hsq2 hD]
      · rw [if_neg ht1, decide_eq_true_eq]
        exact Or.inl (le_of_lt hn)
    · rw [if_neg ht2, decide_eq_true_eq] at h
      have ht1 : ¬ 0 < t₁ := fun h1 => ht2 (lt_of_lt_of_le h1 ht)
      rw [if_neg ht1, decide_eq_true_eq]
      rcases h with h | h
      · exact Or.inl h
      · right
        have ht2' : t₂ ≤ 0 := le_of_not_lt ht2
        have hsq2 : t₂ ^ 2 ≤ t₁ ^ 2 := by
          nlinarith [mul_nonneg (by linarith : (0:ℚ) ≤ -(t₁ + t₂))
            (by linarith : (0:ℚ) ≤ t₂ - t₁)]
        nlinarith [mul_le_mul_of_nonneg_right hsq2 hD]

/-- C3: threshold monotonicity: for the same frame/template pair and
thresholds `t₁ ≤ t₂`, the Match Set at `t₂` is a subset of the Match
Set at `t₁`, and its size is no larger. -/
theorem threshold_monotone (frame : ColorImage) (tmpl : GrayImage)
    (t₁ t₂ : ℚ) (ht : t₁ ≤ t₂) :
    (∀ p ∈ frameMatchSet frame tmpl t₂, p ∈ frameMatchSet frame tmpl t₁) ∧
    (frameMatchSet frame tmpl t₂).length ≤
      (frameMatchSet frame tmpl t₁).length := by
  have hsub : List.Sublist (frameMatchSet frame tmpl t₂)
      (frameMatchSet frame tmpl t₁) := by
    unfold frameMatchSet matchPoints
    apply List.monotone_filter_right
    intro p hp
    exact geScore_mono _ _ t₁ t₂
      (ccoeffDenSq_nonneg (cvtColorBGR2GRAY frame) tmpl p.2 p.1) ht hp
  exact ⟨fun p hp => hsub.subset hp, hsub.length_le⟩

/-- Witness for `threshold_monotone`: the source threshold 0.3 against
the higher threshold 0.5 on the 1×1 frame and template. -/
theorem threshold_monotone_witness :
    threshold ≤ mkRat 1 2 ∧
    ((∀ p ∈ frameMatchSet frameEx tmplEx (mkRat 1 2),
        p ∈ frameMatchSet frameEx tmplEx threshold) ∧
     (frameMatchSet frameEx tmplEx (mkRat 1 2)).length ≤
       (frameMatchSet frameEx tmplEx threshold).length) :=
  ⟨by decide, threshold_monotone frameEx tmplEx threshold (mkRat 1 2)
    (by decide)⟩

lemma geScore_iff_real (n D t : ℚ) (hD : 0 ≤ D) :
    geScore n D t = true ↔
      (t : ℝ) ≤ (n : ℝ) / Real.sqrt (D : ℝ) := by
  unfold geScore
  by_cases hD0 : D = 0
  · subst hD0
    rw [if_pos rfl, decide_eq_true_eq]
    simp only [Rat.cast_zero, Real.sqrt_zero, div_zero]
    constructor <;> intro h <;> exact_mod_cast h
  · have hDpos : (0 : ℚ) < D := lt_of_le_of_ne hD (Ne.symm hD0)
    have hDR : (0 : ℝ) < (D : ℝ) := by exact_mod_cast hDpos
    have hs : 0 < Real.sqrt (D : ℝ) := Real.sqrt_pos.mpr hDR
    have hssq : Real.sqrt (D : ℝ) ^ 2 = (D : ℝ) := Real.sq_sqrt hDR.le
    rw [if_neg hD0, le_div_iff₀ hs]
    by_cases ht : 0 < t
    · rw [if_pos ht, decide_eq_true_eq]
      have htR : (0 : ℝ) < (t : ℝ) := by exact_mod_cast ht
      constructor
      · rintro ⟨hn, hsq⟩
        have hnR : (0 : ℝ) < (n : ℝ) := by exact_mod_cast hn
        have hsqR : (t : ℝ) ^ 2 * (D : ℝ) ≤ (n : ℝ) ^ 2 := by exact_mod_cast hsq
        nlinarith [mul_pos htR hs, hssq, sq_nonneg ((n : ℝ) - (t : ℝ) * Real.sqrt (D : ℝ))]
      · intro h
        have hts : 0 < (t : ℝ) * Real.sqrt (D : ℝ) := mul_pos htR hs
        have hnR : (0 : ℝ) < (n : ℝ) := lt_of_lt_of_le hts h
        refine ⟨by exact_mod_cast hnR, ?_⟩
        have h1 : (0 : ℝ) ≤
            ((n : ℝ) - (t : ℝ) * Real.sqrt (D : ℝ)) *
              ((n : ℝ) + (t : ℝ) * Real.sqrt (D : ℝ)) :=
          mul_nonneg (by linarith) (by linarith)
        have h2 : (t : ℝ) ^ 2 * (D : ℝ) ≤ (n : ℝ) ^ 2 := by nlinarith [hssq]
        exact_mod_cast h2
    · rw [if_neg ht, decide_eq_true_eq]
      have htR : (t : ℝ) ≤ 0 := by exact_mod_cast le_of_not_lt ht
      have hts0 : (t : ℝ) * Real.sqrt (D : ℝ) ≤ 0 :=
        mul_nonpos_iff.mpr (Or.inr ⟨htR, hs.le⟩)
      constructor
      · rintro (hn | hsq)
        · have hnR : (0 : ℝ) ≤ (n : ℝ) := by exact_mod_cast hn
          linarith
        · have hsqR : (n : ℝ) ^ 2 ≤ (t : ℝ) ^ 2 * (D : ℝ) := by exact_mod_cast hsq
          have habs : |(n : ℝ)| ≤ |(t : ℝ) * Real.sqrt (D : ℝ)| := by
            rw [← Real.sqrt_sq_eq_abs, ← Real.sqrt_sq_eq_abs]
            apply Real.sqrt_le_sqrt
            nlinarith [hssq]
          have heq : (t : ℝ) * Real.sqrt (D : ℝ) =
              -|(t : ℝ) * Real.sqrt (D : ℝ)| := by
            rw [abs_of_nonpos hts0]; ring
          linarith [neg_abs_le (n : ℝ), neg_le_neg habs]
      · intro h
        by_cases hn : 0 ≤ n
        · exact Or.inl hn
        · right
          have hnR : (n : ℝ) < 0 := by exact_mod_cast not_le.mp hn
          have h1 : (0 : ℝ) ≤
              ((n : ℝ) - (t : ℝ) * Real.sqrt (D : ℝ)) *
                (-((t : ℝ) * Real.sqrt (D : ℝ) + (n : ℝ))) :=
            mul_nonneg (by linarith) (by linarith)
          have h2 : (n : ℝ) ^ 2 ≤ (t : ℝ) ^ 2 * (D : ℝ) := by nlinarith [hssq]
          exact_mod_cast h2

lemma mem_allPositions (img tmpl : GrayImage) (p : Nat × Nat) :
    p ∈ allPositions img tmpl ↔
      p.1 < width img - width tmpl + 1 ∧
      p.2 < height img - height tmpl + 1 := by
  unfold allPositions
  rw [List.mem_flatMap]
  constructor
  · rintro ⟨y, hy, hp⟩
    rw [List.mem_range] at hy
    obtain ⟨x, hx, rfl⟩ := List.mem_map.mp hp
    rw [List.mem_range] at hx
    exact ⟨hx, hy⟩
  · rintro ⟨h1, h2⟩
    exact ⟨p.2, List.mem_range.mpr h2,
      List.mem_map.mpr ⟨p.1, List.mem_range.mpr h1, by simp⟩⟩

lemma nodup_allPositions (img tmpl : GrayImage) :
    (allPositions img tmpl).Nodup := by
  unfold allPositions
  rw [List.nodup_flatMap]
  constructor
  · intro y hy
    apply List.Nodup.map ?_ (List.nodup_range _)
    intro a b hab
    simpa using hab
  · apply (List.pairwise_lt_range _).imp
    intro a b hab
    intro p hpa hpb
    obtain ⟨x, _, rfl⟩ := List.mem_map.mp hpa
    obtain ⟨x', _, h2⟩ := List.mem_map.mp hpb
    injection h2 with h3 h4
    omega

/-- C1: for a valid non-empty frame and a template no larger than it, the
Match Set is duplicate-free and holds exactly the (x, y) positions of the
score surface whose normalized cross-correlation score is at least the
threshold 0.3 — every qualifying position is in, nothing else is, and
overlapping qualifying positions are all kept.  The score surface entry
at (x, y) is exactly the (numerator, squared denominator) representation
of that score. -/
theorem match_set_exact (frame : ColorImage) (tmpl : GrayImage)
    (hne : 0 < height frame) (hneW : 0 < width frame)
    (hh : height tmpl ≤ height frame) (hw : width tmpl ≤ width frame) :
    (frameMatchSet frame tmpl threshold).Nodup ∧
    (∀ x y : Nat, (x, y) ∈ frameMatchSet frame tmpl threshold ↔
      (x < width frame - width tmpl + 1 ∧
       y < height frame - height tmpl + 1 ∧
       (threshold : ℝ) ≤ nccScore (cvtColorBGR2GRAY frame) tmpl y x)) ∧
    (∀ x y : Nat, y < height frame - height tmpl + 1 →
      x < width frame - width tmpl + 1 →
      ((matchTemplateCCOEFFNormed (cvtColorBGR2GRAY frame) tmpl).getD y
          []).getD x (0, 0) =
        (ccoeffNum (cvtColorBGR2GRAY frame) tmpl y x,
         ccoeffDenSq (cvtColorBGR2GRAY frame) tmpl y x)) := by
  refine ⟨(nodup_allPositions _ _).filter _, ?_, ?_⟩
  · intro x y
    unfold frameMatchSet matchPoints
    rw [List.mem_filter, mem_allPositions]
    simp only [width_cvtColor, height_cvtColor]
    rw [geScore_iff_real _ _ _
      (ccoeffDenSq_nonneg (cvtColorBGR2GRAY frame) tmpl y x)]
    unfold nccScore
    tauto
  · intro x y hy hx
    unfold matchTemplateCCOEFFNormed
    rw [getD_map_range, if_pos (by rwa [height_cvtColor]),
      getD_map_range, if_pos (by rwa [width_cvtColor])]

/-- Witness for `match_set_exact` at the 1×1 frame and template. -/
theorem match_set_exact_witness :
    0 < height frameEx ∧ 0 < width frameEx ∧
    height tmplEx ≤ height frameEx ∧ width tmplEx ≤ width frameEx ∧
    ((frameMatchSet frameEx tmplEx threshold).Nodup ∧
     (∀ x y : Nat, (x, y) ∈ frameMatchSet frameEx tmplEx threshold ↔
       (x < width frameEx - width tmplEx + 1 ∧
        y < height frameEx - height tmplEx + 1 ∧
        (threshold : ℝ) ≤ nccScore (cvtColorBGR2GRAY frameEx) tmplEx y x)) ∧
     (∀ x y : Nat, y < height frameEx - height tmplEx + 1 →
       x < width frameEx - width tmplEx + 1 →
       ((matchTemplateCCOEFFNormed (cvtColorBGR2GRAY frameEx) tmplEx).getD y
           []).getD x (0, 0) =
         (ccoeffNum (cvtColorBGR2GRAY frameEx) tmplEx y x,
          ccoeffDenSq (cvtColorBGR2GRAY frameEx) tmplEx y x))) :=
  ⟨by decide, by decide, by decide, by decide,
   match_set_exact frameEx tmplEx (by decide) (by decide) (by decide)
     (by decide)⟩

lemma height_rectangle (img : ColorImage) (pt1 pt2 : Nat × Nat)
    (color : Nat × Nat × Nat) (th : ℤ) :
    height (rectangle img pt1 pt2 color th) = height img := by
  simp [rectangle, height]

lemma width_rectangle (img : ColorImage) (pt1 pt2 : Nat × Nat)
    (color : Nat × Nat × Nat) (th : ℤ) :
    width (rectangle img pt1 pt2 color th) = width img := by
  cases img with
  | nil => rfl
  | cons r t =>
    show width ((List.range (height (r :: t))).map _) = width (r :: t)
    rw [show height (r :: t) = t.length + 1 from rfl, List.range_succ_eq_map]
    simp [width]

lemma rectangular_rectangle (img : ColorImage) (pt1 pt2 : Nat × Nat)
    (color : Nat × Nat × Nat) (th : ℤ) :
    Rectangular (rectangle img pt1 pt2 color th) := by
  intro r hr
  unfold rectangle at hr
  obtain ⟨y, hy, rfl⟩ := List.mem_map.mp hr
  simp [width_rectangle]

lemma pixelC_rectangle (img : ColorImage) (pt1 pt2 : Nat × Nat)
    (color : Nat × Nat × Nat) (th : ℤ) (x y : Nat)
    (hrect : Rectangular img) :
    pixelC (rectangle img pt1 pt2 color th) y x =
      if y < height img ∧ x < width img ∧
          onRectBorder pt1.1 pt1.2 pt2.1 pt2.2 th x y = true then color
      else pixelC img y x := by
  unfold rectangle pixelC
  rw [getD_map_range]
  by_cases hy : y < height img
  · rw [if_pos hy, getD_map_range]
    by_cases hx : x < width img
    · rw [if_pos hx]
      by_cases hb : onRectBorder pt1.1 pt1.2 pt2.1 pt2.2 th x y = true
      · rw [if_pos hb, if_pos ⟨hy, hx, hb⟩]
      · rw [if_neg hb, if_neg (by tauto)]
    · rw [if_neg hx, if_neg (by tauto)]
      have hmem : img.getD y [] ∈ img := by
        rw [List.getD_eq_getElem img [] hy]
        exact List.getElem_mem hy
      have hrow : (img.getD y []).length = width img := hrect _ hmem
      exact (List.getD_eq_default _ _
        (by rw [hrow]; exact Nat.le_of_not_lt hx)).symm
  · rw [if_neg hy, if_neg (by tauto)]
    rw [List.getD_eq_default img [] (Nat.le_of_not_lt hy)]

lemma annotate_pixel_untouched (w h : Nat) (color : Nat × Nat × Nat)
    (pts : List (Nat × Nat)) :
    ∀ (img : ColorImage), Rectangular img → ∀ x y : Nat,
      (∀ pt ∈ pts,
        onRectBorder pt.1 pt.2 (pt.1 + w) (pt.2 + h) 2 x y = false) →
      pixelC (pts.foldl (fun im pt =>
        rectangle im pt (pt.1 + w, pt.2 + h) color 2) img) y x =
        pixelC img y x := by
  induction pts with
  | nil =>
    intro img _ x y _
    rfl
  | cons pt rest ih =>
    intro img hrect x y hb
    rw [List.foldl_cons]
    rw [ih (rectangle img pt (pt.1 + w, pt.2 + h) color 2)
      (rectangular_rectangle img pt (pt.1 + w, pt.2 + h) color 2) x y
      (fun q hq => hb q (List.mem_cons_of_mem _ hq))]
    rw [pixelC_rectangle img pt (pt.1 + w, pt.2 + h) color 2 x y hrect]
    rw [if_neg (by simp [hb pt (List.mem_cons_self pt rest)])]

lemma annotate_pixel_painted (w h : Nat) (color : Nat × Nat × Nat)
    (pts : List (Nat × Nat)) :
    ∀ (img : ColorImage), Rectangular img → ∀ x y : Nat,
      y < height img → x < width img →
      (pixelC img y x = color ∨ ∃ pt ∈ pts,
        onRectBorder pt.1 pt.2 (pt.1 + w) (pt.2 + h) 2 x y = true) →
      pixelC (pts.foldl (fun im pt =>
        rectangle im pt (pt.1 + w, pt.2 + h) color 2) img) y x = color := by
  induction pts with
  | nil =>
    intro img _ x y _ _ hcase
    rcases hcase with hc | ⟨pt, hpt, _⟩
    · exact hc
    · simp at hpt
  | cons pt rest ih =>
    intro img hrect x y hy hx hcase
    rw [List.foldl_cons]
    apply ih (rectangle img pt (pt.1 + w, pt.2 + h) color 2)
      (rectangular_rectangle img pt (pt.1 + w, pt.2 + h) color 2) x y
    · rw [height_rectangle]
      exact hy
    · rw [width_rectangle]
      exact hx
    · rcases hcase with hc | ⟨pt', hpt', hb⟩
      · left
        rw [pixelC_rectangle img pt (pt.1 + w, pt.2 + h) color 2 x y hrect]
        split
        · rfl
        · exact hc
      · rcases List.mem_cons.mp hpt' with heq | hmem
        · left
          rw [pixelC_rectangle img pt (pt.1 + w, pt.2 + h) color 2 x y hrect]
          rw [if_pos ⟨hy, hx, by rw [← heq]; exact hb⟩]
        · exact Or.inr ⟨pt', hmem, hb⟩

/-- C2: for every match position the matcher paints exactly the
thickness-2 border band of the rectangle of the template's width and
height anchored at that position, in BGR color (0,0,255), on the original
color frame: a pixel on no match's border band is left unchanged, and an
in-bounds pixel on some match's border band ends up (0,0,255). -/
theorem rectangles_drawn (img : ColorImage) (tmpl : GrayImage) (count : Nat)
    (hrect : Rectangular img) (x y : Nat) :
    ((∀ pt ∈ frameMatchSet img tmpl threshold,
        onRectBorder pt.1 pt.2 (pt.1 + width tmpl) (pt.2 + height tmpl) 2
          x y = false) →
      pixelC (process_image img tmpl count).annotated y x =
        pixelC img y x) ∧
    (y < height img → x < width img →
      (∃ pt ∈ frameMatchSet img tmpl threshold,
        onRectBorder pt.1 pt.2 (pt.1 + width tmpl) (pt.2 + height tmpl) 2
          x y = true) →
      pixelC (process_image img tmpl count).annotated y x = (0, 0, 255)) := by
  have hann : (process_image img tmpl count).annotated =
      (frameMatchSet img tmpl threshold).foldl
        (fun im pt =>
          rectangle im pt (pt.1 + width tmpl, pt.2 + height tmpl)
            (0, 0, 255) 2) img := rfl
  constructor
  · intro hb
    rw [hann]
    exact annotate_pixel_untouched (width tmpl) (height tmpl) (0, 0, 255)
      (frameMatchSet img tmpl threshold) img hrect x y hb
  · intro hy hx hex
    rw [hann]
    exact annotate_pixel_painted (width tmpl) (height tmpl) (0, 0, 255)
      (frameMatchSet img tmpl threshold) img hrect x y hy hx (Or.inr hex)

/-- Witness for `rectangles_drawn` at the 1×1 frame and template. -/
theorem rectangles_drawn_witness :
    Rectangular frameEx ∧
    (((∀ pt ∈ frameMatchSet frameEx tmplEx threshold,
         onRectBorder pt.1 pt.2 (pt.1 + width tmplEx)
           (pt.2 + height tmplEx) 2 0 0 = false) →
       pixelC (process_image frameEx tmplEx 0).annotated 0 0 =
         pixelC frameEx 0 0) ∧
     (0 < height frameEx → 0 < width frameEx →
       (∃ pt ∈ frameMatchSet frameEx tmplEx threshold,
         onRectBorder pt.1 pt.2 (pt.1 + width tmplEx)
           (pt.2 + height tmplEx) 2 0 0 = true) →
       pixelC (process_image frameEx tmplEx 0).annotated 0 0 =
         (0, 0, 255))) :=
  ⟨by decide, rectangles_drawn frameEx tmplEx 0 (by decide) 0 0⟩
